import Mathlib

/-!
# Job/Shift Lifecycle Engine — verification of the specification against the source

Shallow embedding of the Job/Shift lifecycle engine of the movers-workflow
platform.  The definitions below are translated from the Express route
handlers in the repository:

* `createShift`        — POST /shifts            (src/unnamed/part_006, lines 100–192)
* `updateShiftStatus`  — PUT  /shifts/:id        (src/unnamed/part_006, lines 241–318,
                         restricted to status-only request bodies)
* `completeShift`      — POST /shifts/:id/complete (src/unnamed/part_006, lines 339–435)
* `updateJobStatus`    — POST /jobs/:id/status   (src/backend/src/routes/auth.ts,
                         second router in the file, lines 541–603)
* `applyForJob`        — POST /jobs/:id/apply    (same file, lines 606–707)
* `assignEmployees`    — POST /jobs/:id/assign   (same file, lines 511–538)
* `validateStatusTransition` — helper from
  src/backend/src/routes/__tests__/jobs.test.ts, lines 252–262.

Conventions of the embedding:

* Database rows are Lean structures; the store is a `State` of three lists.
  Timestamps are `Int` (milliseconds since epoch; only their order matters).
* Each handler is a function `State → Except Err State`.  A thrown
  `AppError` is an `.error e`: the handlers throw before any write (or the
  ORM rolls the enclosing transaction back), so an error leaves the store
  unchanged.
* Route-level middleware (`protect`, `restrictTo`) is authentication plumbing
  external to the engine; the role checks written inline in the handler
  bodies are embedded faithfully via a `Caller` argument.
* Prisma generates row ids; a fresh id is passed explicitly as `newId`.
* A handler that performs several top-level `await prisma.…` store writes is
  embedded as a list of commands (`State → State`), one per top-level store
  call, with a `prisma.$transaction` block counting as a single command
  (its inner writes commit or roll back together).  `execCmds` runs the
  commands, optionally stopping before the k-th one to model a storage
  failure between two independent store calls.
-/

deriving instance DecidableEq for Except

namespace Movers

/-- Job status enum (prisma schema `JobStatus`). -/
inductive JobStatus
  | AVAILABLE
  | ASSIGNED
  | IN_PROGRESS
  | COMPLETED
  | CANCELLED
  deriving DecidableEq, Repr

/-- Shift status enum (prisma schema `ShiftStatus`). -/
inductive ShiftStatus
  | SCHEDULED
  | ACTIVE
  | COMPLETED
  | CANCELLED
  deriving DecidableEq, Repr

/-- User roles relevant to the engine. -/
inductive Role
  | EMPLOYEE
  | EMPLOYER
  | ADMIN
  deriving DecidableEq, Repr

/-- A user row, reduced to the fields the engine reads. -/
structure User where
  id : Nat
  role : Role
  verified : Bool
  deriving DecidableEq, Repr

/-- A job row, reduced to the fields the engine reads or writes.
`employees` is the denormalized membership set (the `employees` relation). -/
structure Job where
  id : Nat
  status : JobStatus
  date : Int
  employees : List Nat
  deriving DecidableEq, Repr

/-- A shift row, reduced to the fields the engine reads or writes. -/
structure Shift where
  id : Nat
  jobId : Nat
  employeeId : Nat
  startTime : Int
  endTime : Int
  status : ShiftStatus
  breakMinutes : Int
  deriving DecidableEq, Repr

/-- The durable store. -/
structure State where
  users : List User
  jobs : List Job
  shifts : List Shift
  deriving DecidableEq, Repr

/-- The authenticated caller (`req.user`), as the handlers read it. -/
structure Caller where
  id : Nat
  role : Role
  deriving DecidableEq, Repr

/-- The `AppError`s thrown by the embedded handlers, one constructor per
distinct throw site message. -/
inductive Err
  | employeeNotFound        -- 'Employee not found' (404)
  | employeeNotVerified     -- 'Employee is not verified' (400)
  | jobNotFound             -- 'Job not found' (404)
  | startNotBeforeEnd       -- 'Start time must be before end time' (400)
  | overlappingShift        -- 'Employee has overlapping shift' (400)
  | shiftNotFound           -- 'Shift not found' (404)
  | forbidden               -- 'You do not have permission …' (403)
  | onlyActiveCompletable   -- 'Only active shifts can be completed' (400)
  | jobNotAvailable         -- 'This job is no longer available' (400)
  | alreadyAssignedToJob    -- 'You are already assigned to this job' (400)
  | notVerifiedToApply      -- 'Your account must be verified to apply for jobs' (403)
  | connectedRecordNotFound -- prisma P2025 on `connect` to a missing row
  deriving DecidableEq, Repr

/-- `prisma.user.findUnique({ where: { id } })`. -/
def findUser (st : State) (id : Nat) : Option User :=
  st.users.find? (fun u => u.id = id)

/-- `prisma.job.findUnique({ where: { id } })`. -/
def findJob (st : State) (id : Nat) : Option Job :=
  st.jobs.find? (fun j => j.id = id)

/-- `prisma.shift.findUnique({ where: { id } })`. -/
def findShift (st : State) (id : Nat) : Option Shift :=
  st.shifts.find? (fun s => s.id = id)

/-- The shifts belonging to a job (`job.shifts` include / `where: { jobId }`). -/
def jobShifts (st : State) (jobId : Nat) : List Shift :=
  st.shifts.filter (fun s => s.jobId = jobId)

/-- `prisma.job.update({ where: { id }, data: … })` applied pointwise. -/
def updateJob (st : State) (id : Nat) (f : Job → Job) : State :=
  { st with jobs := st.jobs.map (fun j => if j.id = id then f j else j) }

/-- `prisma.shift.update({ where: { id }, data: … })` applied pointwise. -/
def updateShift (st : State) (id : Nat) (f : Shift → Shift) : State :=
  { st with shifts := st.shifts.map (fun s => if s.id = id then f s else s) }

/-- The status of a stored job, for stating theorems. -/
def jobStatusIn (st : State) (id : Nat) : Option JobStatus :=
  (findJob st id).map (fun j => j.status)

/-- The state an operation leaves behind: the new state on success, the
unchanged input state on a thrown error. -/
def stateAfter (r : Except Err State) (st : State) : State :=
  match r with
  | .ok st' => st'
  | .error _ => st

/-- `true` iff the operation succeeded. -/
def isOk (r : Except Err State) : Bool :=
  match r with
  | .ok _ => true
  | .error _ => false

/-- Run a handler's top-level store commands in order.  `failAt = some k`
models the storage layer failing just before the k-th top-level store call
(counting from 0), aborting the rest; commands inside one
`prisma.$transaction` block are a single element of the list. -/
def execCmds (cmds : List (State → State)) (failAt : Option Nat) (st : State) : State :=
  match cmds, failAt with
  | _, some 0 => st
  | [], _ => st
  | c :: cs, none => execCmds cs none (c st)
  | c :: cs, some (n + 1) => execCmds cs (some n) (c st)

/-! ## createShift — POST /shifts (src/unnamed/part_006, lines 100–192) -/

/-- Parsed body of POST /shifts (`createShiftSchema`). -/
structure CreateShiftData where
  employeeId : Nat
  jobId : Nat
  startTime : Int
  endTime : Int
  deriving DecidableEq, Repr

/-- The `where` clause of the `overlappingShift` query (part_006,
lines 132–150): same employee, and either the proposed start falls in
`[existing.start, existing.end)` or the proposed end falls in
`(existing.start, existing.end]`.  The query has no status filter. -/
def overlapCond (d : CreateShiftData) (s : Shift) : Bool :=
  s.employeeId = d.employeeId &&
    ((s.startTime ≤ d.startTime && s.endTime > d.startTime) ||
     (s.startTime < d.endTime && s.endTime ≥ d.endTime))

/-- POST /shifts: employee exists and is verified, job exists,
`startTime < endTime`, no shift matches `overlapCond`; then a single
`prisma.shift.create` stores the new SCHEDULED shift. -/
def createShift (st : State) (d : CreateShiftData) (newId : Nat) : Except Err State :=
  match findUser st d.employeeId with
  | none => .error .employeeNotFound
  | some employee =>
    if !employee.verified then .error .employeeNotVerified
    else
      match findJob st d.jobId with
      | none => .error .jobNotFound
      | some _ =>
        if d.startTime ≥ d.endTime then .error .startNotBeforeEnd
        else
          match st.shifts.find? (overlapCond d) with
          | some _ => .error .overlappingShift
          | none =>
            .ok { st with
                  shifts := st.shifts ++
                    [{ id := newId, jobId := d.jobId, employeeId := d.employeeId,
                       startTime := d.startTime, endTime := d.endTime,
                       status := .SCHEDULED, breakMinutes := 0 }] }

/-! ## updateShiftStatus — PUT /shifts/:id (src/unnamed/part_006, lines 241–318)

The handler parses an `updateShiftSchema` body; we embed the status-only
request (`{ status }`), for which the "can only update the shift status"
key checks on the EMPLOYEE and EMPLOYER branches pass.  The handler performs
no validation of the status value beyond enum membership (guaranteed here by
the type) and writes it directly with `prisma.shift.update`. -/

/-- PUT /shifts/:id with a `{ status }` body. -/
def updateShiftStatus (st : State) (caller : Caller) (id : Nat) (newStatus : ShiftStatus) :
    Except Err State :=
  match findShift st id with
  | none => .error .shiftNotFound
  | some sh =>
    match findJob st sh.jobId with
    | none => .error .jobNotFound
    | some job =>
      if caller.role = .EMPLOYEE ∧ sh.employeeId ≠ caller.id then .error .forbidden
      else if caller.role = .EMPLOYER ∧ ¬ job.employees.contains caller.id then .error .forbidden
      else .ok (updateShift st id (fun s => { s with status := newStatus }))

/-! ## completeShift — POST /shifts/:id/complete (src/unnamed/part_006, lines 339–435) -/

/-- The parts of the `completeShiftSchema` payload the engine stores on the
shift row (the free-text/photo fields are carried the same way and elided). -/
structure CompletePayload where
  endTime : Int
  breakMinutes : Int
  deriving DecidableEq, Repr

/-- The inline role check of the completion handler (part_006, lines
366–377): an EMPLOYEE may complete only their own shift, an EMPLOYER only a
shift of a job they are a member of, an ADMIN passes both branches. -/
def authorizedForShift (caller : Caller) (sh : Shift) (job : Job) : Bool :=
  match caller.role with
  | .EMPLOYEE => sh.employeeId = caller.id
  | .EMPLOYER => job.employees.contains caller.id
  | .ADMIN => true

/-- POST /shifts/:id/complete: load the shift with its job (and the job's
shifts and members), check permission, require status ACTIVE, then in one
`prisma.$transaction`: write the completion payload with status COMPLETED,
and — if every shift of the job read at the start is COMPLETED apart from
the one being completed — write status COMPLETED on the job, with no check
of the job's current status. -/
def completeShift (st : State) (caller : Caller) (id : Nat) (p : CompletePayload) :
    Except Err State :=
  match findShift st id with
  | none => .error .shiftNotFound
  | some sh =>
    match findJob st sh.jobId with
    | none => .error .jobNotFound
    | some job =>
      if !authorizedForShift caller sh job then .error .forbidden
      else if sh.status ≠ .ACTIVE then .error .onlyActiveCompletable
      else
        let st1 := updateShift st id (fun s =>
          { s with endTime := p.endTime, status := .COMPLETED,
                   breakMinutes := p.breakMinutes })
        let allShiftsCompleted := (jobShifts st sh.jobId).all
          (fun s => s.id = id || s.status = .COMPLETED)
        if allShiftsCompleted then
          .ok (updateJob st1 job.id (fun j => { j with status := .COMPLETED }))
        else
          .ok st1

/-! ## updateJobStatus — POST /jobs/:id/status (auth.ts, lines 541–603) -/

/-- POST /jobs/:id/status as a command list: after the in-enum check
(guaranteed by the `JobStatus` type) and the role check (AVAILABLE and
ASSIGNED require the EMPLOYER role), the handler runs one
`prisma.$transaction` — a single atomic command — that deletes the job's
shifts when `status = AVAILABLE ∧ removeShifts`, then updates the job,
clearing its membership set under the same condition.  No transition
validation is performed: any in-enum status is written over any current
status.  (`prisma.job.update` on a missing id throws P2025, embedded as
`jobNotFound`.) -/
def updateJobStatusCmds (st : State) (caller : Caller) (id : Nat)
    (status : JobStatus) (removeShifts : Bool) :
    Except Err (List (State → State)) :=
  if (status = .AVAILABLE ∨ status = .ASSIGNED) ∧ caller.role ≠ .EMPLOYER then
    .error .forbidden
  else
    match findJob st id with
    | none => .error .jobNotFound
    | some _ =>
      .ok [fun s =>
        let s1 := if status = .AVAILABLE && removeShifts then
            { s with shifts := s.shifts.filter (fun sh => sh.jobId ≠ id) }
          else s
        updateJob s1 id (fun j =>
          { j with status := status,
                   employees := if status = .AVAILABLE && removeShifts then []
                                else j.employees })]

/-- POST /jobs/:id/status, run to completion. -/
def updateJobStatus (st : State) (caller : Caller) (id : Nat)
    (status : JobStatus) (removeShifts : Bool) : Except Err State :=
  (updateJobStatusCmds st caller id status removeShifts).map
    (fun cmds => execCmds cmds none st)

/-! ## applyForJob — POST /jobs/:id/apply (auth.ts, lines 606–707) -/

/-- `connect` semantics of a prisma to-many relation: adding an id already
present is a no-op. -/
def connectId (id : Nat) (l : List Nat) : List Nat :=
  if l.contains id then l else l ++ [id]

/-- POST /jobs/:id/apply as a command list.  Validations (job exists, job
AVAILABLE, caller not already a member, caller verified when an EMPLOYEE)
happen before any write.  Then two separate top-level store calls, not
wrapped in a transaction: (0) `prisma.job.update` connecting the caller and
setting status ASSIGNED; (1) re-read of the job's date followed by
`prisma.shift.create` of a SCHEDULED shift whose start and end are both the
job's date (skipped silently if the re-read finds no job). -/
def applyForJobCmds (st : State) (caller : Caller) (jobId newId : Nat) :
    Except Err (List (State → State)) :=
  match findJob st jobId with
  | none => .error .jobNotFound
  | some job =>
    if job.status ≠ .AVAILABLE then .error .jobNotAvailable
    else if job.employees.contains caller.id then .error .alreadyAssignedToJob
    else if caller.role = .EMPLOYEE ∧
        ¬ ((findUser st caller.id).map (fun u => u.verified)).getD false then
      .error .notVerifiedToApply
    else
      .ok [fun s => updateJob s jobId (fun j =>
             { j with employees := connectId caller.id j.employees,
                      status := .ASSIGNED }),
           fun s =>
             match findJob s jobId with
             | some jd =>
               { s with shifts := s.shifts ++
                 [{ id := newId, jobId := jobId, employeeId := caller.id,
                    startTime := jd.date, endTime := jd.date,
                    status := .SCHEDULED, breakMinutes := 0 }] }
             | none => s]

/-- POST /jobs/:id/apply with an optional storage failure point between its
two top-level store calls. -/
def applyExec (st : State) (caller : Caller) (jobId newId : Nat)
    (failAt : Option Nat) : Except Err State :=
  (applyForJobCmds st caller jobId newId).map (fun cmds => execCmds cmds failAt st)

/-- POST /jobs/:id/apply, run to completion. -/
def applyForJob (st : State) (caller : Caller) (jobId newId : Nat) : Except Err State :=
  applyExec st caller jobId newId none

/-! ## assignEmployees — POST /jobs/:id/assign (auth.ts, lines 511–538) -/

/-- POST /jobs/:id/assign: a single `prisma.job.update` connecting the
listed employee ids and setting status ASSIGNED.  The handler performs no
other checks: no status precondition, no membership check, no verification
check, and it creates no shifts.  (Prisma throws P2025 when the job id or a
connected employee id does not exist.) -/
def assignEmployees (st : State) (jobId : Nat) (employeeIds : List Nat) :
    Except Err State :=
  match findJob st jobId with
  | none => .error .jobNotFound
  | some _ =>
    if employeeIds.any (fun e => (findUser st e).isNone) then
      .error .connectedRecordNotFound
    else
      .ok (updateJob st jobId (fun j =>
        { j with employees := employeeIds.foldl (fun acc e => connectId e acc) j.employees,
                 status := .ASSIGNED }))

/-! ## The transition table the repository's own test suite encodes -/

/-- `validateStatusTransition` from
src/backend/src/routes/__tests__/jobs.test.ts, lines 252–262: the legal job
status graph the test suite checks against (the test expects a job status
update that is not an edge of it to be rejected with
'Invalid status transition'). -/
def validateStatusTransition (currentStatus newStatus : JobStatus) : Bool :=
  (match currentStatus with
   | .AVAILABLE => [JobStatus.ASSIGNED, JobStatus.CANCELLED]
   | .ASSIGNED => [JobStatus.IN_PROGRESS, JobStatus.CANCELLED]
   | .IN_PROGRESS => [JobStatus.COMPLETED, JobStatus.CANCELLED]
   | .COMPLETED => []
   | .CANCELLED => []).contains newStatus

/-! ## The overlap rule as the specification words it (for comparison) -/

/-- Modelled from the spec: the overlap rule of §4.2 as the spec states it —
reject iff some existing non-cancelled shift of the same employee satisfies
`existing.start < new.end AND existing.end > new.start`.  Stated from the
spec's words, to be compared against `overlapCond`, which is translated from
the source. -/
def specOverlap (d : CreateShiftData) (s : Shift) : Bool :=
  s.employeeId = d.employeeId && s.status ≠ .CANCELLED &&
    s.startTime < d.endTime && s.endTime > d.startTime

/-! ## Derived execution helpers used in the statements -/

/-- POST /jobs/:id/status with an optional storage failure point (its single
`prisma.$transaction` is one atomic command, so only "nothing ran" and
"everything ran" are reachable). -/
def updateJobStatusExec (st : State) (caller : Caller) (id : Nat)
    (status : JobStatus) (removeShifts : Bool) (failAt : Option Nat) :
    Except Err State :=
  (updateJobStatusCmds st caller id status removeShifts).map
    (fun cmds => execCmds cmds failAt st)

/-- The completed version of a shift row after `completeShift` writes
payload `p` on it. -/
def completedWith (p : CompletePayload) (s : Shift) : Shift :=
  { s with endTime := p.endTime, status := .COMPLETED, breakMinutes := p.breakMinutes }

/-- Run `completeShift` over a list of shift ids in order, each call seeing
the state the previous one left (an error leaves the state unchanged). -/
def completeAll (caller : Caller) (p : CompletePayload) (st : State) (l : List Nat) : State :=
  l.foldl (fun s i => stateAfter (completeShift s caller i p) s) st

/-- The store with the shifts whose ids lie in `done` overwritten by their
completed versions — the intermediate states of `completeAll`. -/
def markDone (st : State) (p : CompletePayload) (done : List Nat) : State :=
  { st with shifts := st.shifts.map (fun s => if s.id ∈ done then completedWith p s else s) }

/-! ## Concrete stores used for counterexamples and witnesses -/

/-- One verified employee (id 1), one AVAILABLE job (id 1), and one
SCHEDULED shift 10–11 for employee 1. -/
def stContain : State :=
  { users := [{ id := 1, role := .EMPLOYEE, verified := true }],
    jobs := [{ id := 1, status := .AVAILABLE, date := 0, employees := [] }],
    shifts := [{ id := 1, jobId := 1, employeeId := 1, startTime := 10, endTime := 11,
                 status := .SCHEDULED, breakMinutes := 0 }] }

/-- Same store but the existing shift is CANCELLED and spans 10–14. -/
def stCancelled : State :=
  { users := [{ id := 1, role := .EMPLOYEE, verified := true }],
    jobs := [{ id := 1, status := .AVAILABLE, date := 0, employees := [] }],
    shifts := [{ id := 1, jobId := 1, employeeId := 1, startTime := 10, endTime := 14,
                 status := .CANCELLED, breakMinutes := 0 }] }

/-- Proposal 9–12 for employee 1 on job 1: it strictly contains the 10–11
shift of `stContain` and overlaps the 10–14 shift of `stCancelled`. -/
def dNine12 : CreateShiftData :=
  { employeeId := 1, jobId := 1, startTime := 9, endTime := 12 }

/-- Proposal 11–15 for employee 1 on job 1: touches the endpoint of the
10–11 shift of `stContain`. -/
def dTouch : CreateShiftData :=
  { employeeId := 1, jobId := 1, startTime := 11, endTime := 15 }

/-- A COMPLETED job (id 1) whose one shift (id 1, employee 5) is COMPLETED. -/
def stDoneJob : State :=
  { users := [{ id := 5, role := .EMPLOYEE, verified := true }],
    jobs := [{ id := 1, status := .COMPLETED, date := 0, employees := [] }],
    shifts := [{ id := 1, jobId := 1, employeeId := 5, startTime := 0, endTime := 10,
                 status := .COMPLETED, breakMinutes := 0 }] }

/-- One verified employee (id 2) and one AVAILABLE job (id 1, date 5), no
shifts: the apply-path starting point. -/
def stApply : State :=
  { users := [{ id := 2, role := .EMPLOYEE, verified := true }],
    jobs := [{ id := 1, status := .AVAILABLE, date := 5, employees := [] }],
    shifts := [] }

/-- The employee applying in the concrete apply scenarios. -/
def applicant : Caller := { id := 2, role := .EMPLOYEE }

/-- A COMPLETED job (id 1) with an ACTIVE shift (id 1) and a SCHEDULED shift
(id 2): a job already marked COMPLETED while work is still open. -/
def stStaleDone : State :=
  { users := [],
    jobs := [{ id := 1, status := .COMPLETED, date := 0, employees := [] }],
    shifts := [{ id := 1, jobId := 1, employeeId := 2, startTime := 0, endTime := 10,
                 status := .ACTIVE, breakMinutes := 0 },
               { id := 2, jobId := 1, employeeId := 3, startTime := 0, endTime := 10,
                 status := .SCHEDULED, breakMinutes := 0 }] }

/-- An admin caller (passes every inline role check). -/
def admin : Caller := { id := 9, role := .ADMIN }

/-- An employer caller. -/
def employer : Caller := { id := 9, role := .EMPLOYER }

/-- An AVAILABLE job that still lists employee 2 as a member (the state the
reset workflow leaves behind with `removeShifts = false`). -/
def stStaleMember : State :=
  { users := [{ id := 2, role := .EMPLOYEE, verified := true }],
    jobs := [{ id := 1, status := .AVAILABLE, date := 5, employees := [2] }],
    shifts := [] }

/-- A COMPLETED job (id 1) and one unverified employee (id 2), no shifts. -/
def stBulk : State :=
  { users := [{ id := 2, role := .EMPLOYEE, verified := false }],
    jobs := [{ id := 1, status := .COMPLETED, date := 0, employees := [] }],
    shifts := [] }

/-- An ASSIGNED job (id 1) with member 2 and one SCHEDULED shift, plus an
unrelated shift of another job (id 2): the reset workflow's starting point. -/
def stReset : State :=
  { users := [{ id := 2, role := .EMPLOYEE, verified := true }],
    jobs := [{ id := 1, status := .ASSIGNED, date := 5, employees := [2] },
             { id := 2, status := .AVAILABLE, date := 6, employees := [] }],
    shifts := [{ id := 1, jobId := 1, employeeId := 2, startTime := 5, endTime := 5,
                 status := .SCHEDULED, breakMinutes := 0 },
               { id := 2, jobId := 2, employeeId := 2, startTime := 20, endTime := 21,
                 status := .SCHEDULED, breakMinutes := 0 }] }

/-- A CANCELLED job (id 1) whose last open shift (id 1) is ACTIVE while its
sibling (id 2) is COMPLETED. -/
def stCancelledJob : State :=
  { users := [],
    jobs := [{ id := 1, status := .CANCELLED, date := 0, employees := [] }],
    shifts := [{ id := 1, jobId := 1, employeeId := 2, startTime := 0, endTime := 10,
                 status := .ACTIVE, breakMinutes := 0 },
               { id := 2, jobId := 1, employeeId := 3, startTime := 0, endTime := 10,
                 status := .COMPLETED, breakMinutes := 0 }] }

/-- An ASSIGNED job (id 1) with two ACTIVE shifts (ids 1 and 2): the
order-independence scenario. -/
def stTwoActive : State :=
  { users := [],
    jobs := [{ id := 1, status := .ASSIGNED, date := 0, employees := [] }],
    shifts := [{ id := 1, jobId := 1, employeeId := 2, startTime := 0, endTime := 10,
                 status := .ACTIVE, breakMinutes := 0 },
               { id := 2, jobId := 1, employeeId := 3, startTime := 0, endTime := 10,
                 status := .ACTIVE, breakMinutes := 0 }] }

/-- The completion payload used in concrete scenarios. -/
def pay10 : CompletePayload := { endTime := 10, breakMinutes := 0 }

/-- The state the reset workflow's purge leaves behind: shifts of the job
deleted, membership cleared, status AVAILABLE. -/
def resetPurge (st : State) (jobId : Nat) : State :=
  updateJob { st with shifts := st.shifts.filter (fun sh => sh.jobId ≠ jobId) } jobId
    (fun j => { j with status := .AVAILABLE, employees := [] })

/-- The state the reset workflow leaves behind with `removeShifts = false`:
only the status write. -/
def resetKeep (st : State) (jobId : Nat) : State :=
  updateJob st jobId (fun j => { j with status := .AVAILABLE })

end Movers

namespace Movers

/-! ## List-level helper lemmas -/

/-- `find?` commutes with a map that does not change the predicate's value. -/
theorem find?_map_pres {α : Type} (l : List α) (p : α → Bool) (g : α → α)
    (hg : ∀ a, p (g a) = p a) : (l.map g).find? p = (l.find? p).map g := by
  induction l with
  | nil => rfl
  | cons a t ih =>
    simp only [List.map_cons, List.find?_cons, hg a]
    cases hpa : p a
    · simpa using ih
    · rfl

/-- `filter` commutes with a map that does not change the predicate's value. -/
theorem filter_map_pres {α : Type} (l : List α) (p : α → Bool) (g : α → α)
    (hg : ∀ a, p (g a) = p a) : (l.map g).filter p = (l.filter p).map g := by
  induction l with
  | nil => rfl
  | cons a t ih =>
    simp only [List.map_cons, List.filter_cons, hg a]
    cases hpa : p a
    · simpa using ih
    · simpa using ih

/-- With pairwise-distinct keys, `find?` by the key of a member returns that
member. -/
theorem find?_key_of_mem {α : Type} (key : α → Nat) (s : α) :
    ∀ (l : List α), (l.map key).Nodup → s ∈ l →
      l.find? (fun x => key x = key s) = some s := by
  intro l
  induction l with
  | nil => intro _ h; cases h
  | cons a t ih =>
    intro hnd hmem
    rw [List.map_cons, List.nodup_cons] at hnd
    rcases List.mem_cons.mp hmem with rfl | hmem2
    · exact List.find?_cons_of_pos _ (by simp)
    · have hne : key a ≠ key s := fun h =>
        hnd.1 (h ▸ List.mem_map_of_mem key hmem2)
      rw [List.find?_cons_of_neg _ (by simp [hne])]
      exact ih hnd.2 hmem2

/-! ## Store-level helper lemmas -/

/-- Looking the updated job up again returns the updated row, when the
update function keeps the id. -/
theorem findJob_updateJob_self (st : State) (id : Nat) (f : Job → Job)
    (hf : ∀ j, (f j).id = j.id) (job : Job) (hj : findJob st id = some job) :
    findJob (updateJob st id f) id = some (f job) := by
  have hj2 : st.jobs.find? (fun j => j.id = id) = some job := hj
  have hid : job.id = id := by simpa using List.find?_some hj2
  have hmap : findJob (updateJob st id f) id =
      (findJob st id).map (fun j => if j.id = id then f j else j) := by
    unfold findJob updateJob
    exact find?_map_pres st.jobs _ _ (fun j => by
      by_cases h : j.id = id
      · simp [h, hf j]
      · simp [h])
  rw [hmap, hj]
  simp [hid]

/-- The shifts of a job after `updateShift`, when the update function keeps
the jobId: the per-shift update distributes over the filter. -/
theorem jobShifts_updateShift (st : State) (id : Nat) (f : Shift → Shift)
    (hf : ∀ s, (f s).jobId = s.jobId) (j : Nat) :
    jobShifts (updateShift st id f) j =
      (jobShifts st j).map (fun s => if s.id = id then f s else s) := by
  unfold jobShifts updateShift
  exact filter_map_pres st.shifts _ _ (fun s => by
    by_cases h : s.id = id
    · simp [h, hf s]
    · simp [h])

/-- `updateShift` leaves the job table untouched. -/
theorem findJob_updateShift (st : State) (id : Nat) (f : Shift → Shift) (j : Nat) :
    findJob (updateShift st id f) j = findJob st j := rfl

/-- `updateJob` leaves the shift table untouched. -/
theorem jobShifts_updateJob (st : State) (id : Nat) (f : Job → Job) (j : Nat) :
    jobShifts (updateJob st id f) j = jobShifts st j := rfl

/-- Finding a shift in the store after `updateShift`, when the update keeps
ids and the looked-up shift is the updated one. -/
theorem findShift_map_pres (st : State) (id : Nat) (f : Shift → Shift)
    (hf : ∀ s, (f s).id = s.id) :
    findShift (updateShift st id f) id =
      (findShift st id).map (fun s => if s.id = id then f s else s) := by
  unfold findShift updateShift
  exact find?_map_pres st.shifts _ _ (fun s => by
    by_cases h : s.id = id
    · simp [h, hf s]
    · simp [h])

/-- A found job carries the looked-up id. -/
theorem findJob_id (st : State) (id : Nat) (job : Job)
    (hj : findJob st id = some job) : job.id = id := by
  have hj2 : st.jobs.find? (fun j => j.id = id) = some job := hj
  simpa using List.find?_some hj2

/-- A found shift carries the looked-up id. -/
theorem findShift_id (st : State) (id : Nat) (sh : Shift)
    (hs : findShift st id = some sh) : sh.id = id := by
  have hs2 : st.shifts.find? (fun s => s.id = id) = some sh := hs
  simpa using List.find?_some hs2

/-- Membership in a job's shift list unpacked. -/
theorem mem_jobShifts (st : State) (j : Nat) (s : Shift) :
    s ∈ jobShifts st j ↔ s ∈ st.shifts ∧ s.jobId = j := by
  unfold jobShifts
  simp [List.mem_filter]

/-- Marking nothing changes nothing. -/
theorem markDone_nil (st : State) (p : CompletePayload) :
    markDone st p [] = st := by
  unfold markDone
  simp

/-- The completion write keeps the shift id. -/
theorem completedWith_id (p : CompletePayload) (s : Shift) :
    (completedWith p s).id = s.id := rfl

/-- The completion write keeps the shift's jobId. -/
theorem completedWith_jobId (p : CompletePayload) (s : Shift) :
    (completedWith p s).jobId = s.jobId := rfl

/-- The completion write is idempotent. -/
theorem completedWith_idem (p : CompletePayload) (s : Shift) :
    completedWith p (completedWith p s) = completedWith p s := rfl

/-- Completing one more shift on a marked store marks it as well: the
per-shift map of the completion write composed with the map of `markDone`
is the map of `markDone` with the id appended. -/
theorem markDone_snoc (st : State) (p : CompletePayload) (done : List Nat) (i : Nat) :
    updateShift (markDone st p done) i (completedWith p) = markDone st p (done ++ [i]) := by
  unfold updateShift markDone
  simp only [List.map_map]
  congr 1
  refine List.map_congr_left (fun s _ => ?_)
  simp only [Function.comp]
  by_cases hd : s.id ∈ done
  · rw [if_pos hd, completedWith_id]
    have hm : s.id ∈ done ++ [i] := List.mem_append.mpr (Or.inl hd)
    rw [if_pos hm]
    by_cases hi : s.id = i
    · rw [if_pos hi, completedWith_idem]
    · rw [if_neg hi]
  · rw [if_neg hd]
    by_cases hi : s.id = i
    · have hm : s.id ∈ done ++ [i] := by simp [hi]
      rw [if_pos hi, if_pos hm]
    · have hm : s.id ∉ done ++ [i] := by simp [hd, hi]
      rw [if_neg hi, if_neg hm]

/-- `markDone` never touches the job table. -/
theorem findJob_markDone (st : State) (p : CompletePayload) (done : List Nat) (j : Nat) :
    findJob (markDone st p done) j = findJob st j := rfl

/-- The shifts of a job in a marked store are the marked shifts of the job. -/
theorem jobShifts_markDone (st : State) (p : CompletePayload) (done : List Nat) (j : Nat) :
    jobShifts (markDone st p done) j =
      (jobShifts st j).map (fun s => if s.id ∈ done then completedWith p s else s) := by
  unfold jobShifts markDone
  exact filter_map_pres st.shifts _ _ (fun s => by
    by_cases h : s.id ∈ done <;> simp [h, completedWith])

/-- Finding a shift in a marked store. -/
theorem findShift_markDone (st : State) (p : CompletePayload) (done : List Nat) (i : Nat) :
    findShift (markDone st p done) i =
      (findShift st i).map (fun s => if s.id ∈ done then completedWith p s else s) := by
  unfold findShift markDone
  exact find?_map_pres st.shifts _ _ (fun s => by
    by_cases h : s.id ∈ done <;> simp [h, completedWith])

end Movers

namespace Movers

/-! ## Claim C1 — the overlap rule of createShift -/

/-- Pointwise form of the source's overlap query: for well-formed intervals
it detects exactly the overlaps in which the proposal does not strictly
contain the existing shift. -/
theorem overlapCond_iff (d : CreateShiftData) (s : Shift)
    (hd : d.startTime < d.endTime) :
    overlapCond d s = true ↔
      s.employeeId = d.employeeId ∧ s.startTime < d.endTime ∧ s.endTime > d.startTime ∧
        ¬(d.startTime < s.startTime ∧ s.endTime < d.endTime) := by
  unfold overlapCond
  simp only [Bool.and_eq_true, Bool.or_eq_true, decide_eq_true_eq]
  constructor
  · rintro ⟨he, h | h⟩ <;> exact ⟨he, by omega, by omega, by omega⟩
  · rintro ⟨he, h1, h2, h3⟩
    exact ⟨he, by omega⟩

/-- **C1 (counterexample).** The claim states that `createShift` fails with
`SchedulingConflict` exactly when some existing non-cancelled shift of the
employee overlaps the proposal in the half-open sense, so that a proposal
strictly containing an existing shift conflicts and a cancelled shift never
conflicts.  On the code both particulars fail: proposing 9–12 over an
existing 10–11 shift (strict containment, `specOverlap` holds) succeeds,
while proposing 9–12 over a CANCELLED 10–14 shift (`specOverlap` false)
fails with the overlap error. -/
theorem createShift_overlap_claim_false :
    (stContain.shifts.any (specOverlap dNine12) = true ∧
      isOk (createShift stContain dNine12 2) = true) ∧
    (stCancelled.shifts.any (specOverlap dNine12) = false ∧
      createShift stCancelled dNine12 2 = .error .overlappingShift) := by decide

/-- **C1 (amended).** For a verified existing employee, an existing job and
a proposal with `startTime < endTime` over a store of well-formed shifts,
`createShift` fails with the overlap error iff some existing shift of the
employee — of any status, cancelled included — overlaps the proposal
half-open AND the proposal does not strictly contain it (equivalently: one
of the proposal's endpoints falls inside the existing interval).  Touching
endpoints still never conflict. -/
theorem createShift_conflict_iff (st : State) (d : CreateShiftData) (newId : Nat)
    (u : User) (hu : findUser st d.employeeId = some u) (hv : u.verified = true)
    (hj : (findJob st d.jobId).isSome = true) (hlt : d.startTime < d.endTime) :
    createShift st d newId = .error .overlappingShift ↔
      ∃ s ∈ st.shifts, s.employeeId = d.employeeId ∧
        s.startTime < d.endTime ∧ s.endTime > d.startTime ∧
        ¬(d.startTime < s.startTime ∧ s.endTime < d.endTime) := by
  obtain ⟨job, hjob⟩ := Option.isSome_iff_exists.mp hj
  unfold createShift
  simp only [hu, hjob, hv, Bool.not_true, Bool.false_eq_true, if_false]
  rw [if_neg (by omega : ¬ d.startTime ≥ d.endTime)]
  cases hfind : st.shifts.find? (overlapCond d) with
  | some s =>
    constructor
    · intro _
      refine ⟨s, List.mem_of_find?_eq_some hfind, ?_⟩
      exact (overlapCond_iff d s hlt).mp (List.find?_some hfind)
    · intro _; rfl
  | none =>
    constructor
    · intro h; exact absurd h (by simp)
    · rintro ⟨s, hsmem, hrest⟩
      have hnone := List.find?_eq_none.mp hfind s hsmem
      exact absurd ((overlapCond_iff d s hlt).mpr hrest) hnone

/-- **C1 (witness).** A proposal touching the endpoint of the only existing
shift is not rejected as overlapping. -/
theorem createShift_conflict_iff_witness :
    createShift stContain dTouch 2 ≠ .error .overlappingShift := fun h =>
  absurd ((createShift_conflict_iff stContain dTouch 2
      { id := 1, role := .EMPLOYEE, verified := true }
      (by decide) (by decide) (by decide) (by decide)).mp h) (by decide)

/-! ## Shared inversion of the completion handler -/

/-- On an existing ACTIVE shift with an authorized caller, `completeShift`
commits the completion write, and additionally the job-status write exactly
when the pre-read shift set of the job is completed apart from the shift at
hand. -/
theorem completeShift_post (st : State) (caller : Caller) (id : Nat) (p : CompletePayload)
    (sh : Shift) (job : Job)
    (hsh : findShift st id = some sh) (hj : findJob st sh.jobId = some job)
    (hauth : authorizedForShift caller sh job = true) (hact : sh.status = .ACTIVE) :
    completeShift st caller id p =
      if (jobShifts st sh.jobId).all (fun s => s.id = id || s.status = .COMPLETED) then
        .ok (updateJob (updateShift st id (completedWith p)) job.id
              (fun jb => { jb with status := .COMPLETED }))
      else .ok (updateShift st id (completedWith p)) := by
  unfold completeShift
  simp only [hsh, hj, hauth, Bool.not_true, Bool.false_eq_true, if_false]
  rw [if_neg (by simp [hact])]
  rfl

/-! ## Claim C5 — completion requires an ACTIVE shift -/

/-- **C5 (confirmed).** For an authorized caller, `completeShift` on an
existing shift whose status is not ACTIVE (an already-COMPLETED one in
particular) fails with the invalid-state error; the error is thrown before
the transaction starts, so neither the shift's fields nor the parent job's
status change. -/
theorem completeShift_requires_active (st : State) (caller : Caller) (id : Nat)
    (p : CompletePayload) (sh : Shift) (job : Job)
    (hsh : findShift st id = some sh) (hj : findJob st sh.jobId = some job)
    (hauth : authorizedForShift caller sh job = true) (hne : sh.status ≠ .ACTIVE) :
    completeShift st caller id p = .error .onlyActiveCompletable ∧
      stateAfter (completeShift st caller id p) st = st := by
  have h : completeShift st caller id p = .error .onlyActiveCompletable := by
    unfold completeShift
    simp only [hsh, hj, hauth, Bool.not_true, Bool.false_eq_true, if_false]
    rw [if_pos hne]
  exact ⟨h, by rw [h]; rfl⟩

/-- **C5 (witness).** Re-requesting completion of the already-COMPLETED
shift of `stDoneJob` fails with the invalid-state error and leaves the
store untouched. -/
theorem completeShift_requires_active_witness :
    completeShift stDoneJob { id := 5, role := .EMPLOYEE } 1 pay10 =
      .error .onlyActiveCompletable ∧
    stateAfter (completeShift stDoneJob { id := 5, role := .EMPLOYEE } 1 pay10) stDoneJob =
      stDoneJob :=
  completeShift_requires_active stDoneJob { id := 5, role := .EMPLOYEE } 1 pay10
    { id := 1, jobId := 1, employeeId := 5, startTime := 0, endTime := 10,
      status := .COMPLETED, breakMinutes := 0 }
    { id := 1, status := .COMPLETED, date := 0, employees := [] }
    (by decide) (by decide) (by decide) (by decide)

/-! ## Claim C10 — the cascade ignores the job's current status -/

/-- **C10 (confirmed).** When every other shift of the parent job is
COMPLETED, completing the last ACTIVE shift writes status COMPLETED to the
job unconditionally — there is no hypothesis on the job's current status,
so this covers jobs currently AVAILABLE, ASSIGNED or CANCELLED as well. -/
theorem completeShift_cascade_ignores_job_status (st : State) (caller : Caller) (id : Nat)
    (p : CompletePayload) (sh : Shift) (job : Job)
    (hsh : findShift st id = some sh) (hj : findJob st sh.jobId = some job)
    (hauth : authorizedForShift caller sh job = true) (hact : sh.status = .ACTIVE)
    (hall : ∀ s ∈ jobShifts st sh.jobId, s.id = id ∨ s.status = .COMPLETED) :
    completeShift st caller id p =
      .ok (updateJob (updateShift st id (completedWith p)) job.id
            (fun jb => { jb with status := .COMPLETED })) ∧
    jobStatusIn (stateAfter (completeShift st caller id p) st) sh.jobId =
      some .COMPLETED := by
  have hcond : (jobShifts st sh.jobId).all
      (fun s => s.id = id || s.status = .COMPLETED) = true := by
    rw [List.all_eq_true]
    intro s hs
    rcases hall s hs with h | h <;> simp [h]
  have hpost := completeShift_post st caller id p sh job hsh hj hauth hact
  rw [if_pos hcond] at hpost
  refine ⟨hpost, ?_⟩
  rw [hpost]
  have hjid : job.id = sh.jobId := findJob_id st sh.jobId job hj
  have hfind : findJob (updateShift st id (completedWith p)) sh.jobId = some job := hj
  have hupd := findJob_updateJob_self (updateShift st id (completedWith p)) sh.jobId
    (fun jb => { jb with status := .COMPLETED }) (fun _ => rfl) job hfind
  unfold stateAfter jobStatusIn
  rw [hjid, hupd]
  rfl

/-- **C10 (witness).** Completing the last open shift of the CANCELLED job
of `stCancelledJob` still stamps the job COMPLETED. -/
theorem completeShift_cascade_ignores_job_status_witness :
    jobStatusIn (stateAfter (completeShift stCancelledJob admin 1 pay10) stCancelledJob) 1 =
      some .COMPLETED :=
  (completeShift_cascade_ignores_job_status stCancelledJob admin 1 pay10
    { id := 1, jobId := 1, employeeId := 2, startTime := 0, endTime := 10,
      status := .ACTIVE, breakMinutes := 0 }
    { id := 1, status := .CANCELLED, date := 0, employees := [] }
    (by decide) (by decide) (by decide) (by decide) (by decide)).2

/-! ## Claim C2 — no transition validation on status updates -/

/-- **C2 (code bug).** The repository's own test helper
`validateStatusTransition` rules out COMPLETED→AVAILABLE, yet the job
status route accepts it and overwrites the stored status, and the shift
update route likewise accepts COMPLETED→SCHEDULED: neither handler
validates transitions, rejects with an invalid-transition error, or leaves
the stored status unchanged. -/
theorem statusUpdate_skips_transition_validation :
    validateStatusTransition .COMPLETED .AVAILABLE = false ∧
    updateJobStatus stDoneJob employer 1 .AVAILABLE false =
      .ok { stDoneJob with
            jobs := [{ id := 1, status := .AVAILABLE, date := 0, employees := [] }] } ∧
    updateShiftStatus stDoneJob { id := 5, role := .EMPLOYEE } 1 .SCHEDULED =
      .ok { stDoneJob with
            shifts := [{ id := 1, jobId := 1, employeeId := 5, startTime := 0,
                         endTime := 10, status := .SCHEDULED, breakMinutes := 0 }] } := by
  decide

/-! ## Shared characterization of the apply handler -/

/-- The final state of a fully successful `applyForJob`: the membership-add
and ASSIGNED write, plus the appended zero-length SCHEDULED shift anchored
at the job's date. -/
def applyFull (st : State) (caller : Caller) (jobId newId : Nat) (job : Job) : State :=
  { updateJob st jobId (fun j =>
      { j with employees := connectId caller.id j.employees, status := .ASSIGNED }) with
    shifts := st.shifts ++
      [{ id := newId, jobId := jobId, employeeId := caller.id,
         startTime := job.date, endTime := job.date,
         status := .SCHEDULED, breakMinutes := 0 }] }

/-- The state after only the first of the two top-level store calls of the
apply handler: job updated, no shift created. -/
def applyMid (st : State) (caller : Caller) (jobId : Nat) : State :=
  updateJob st jobId (fun j =>
    { j with employees := connectId caller.id j.employees, status := .ASSIGNED })

/-- When the validations of the apply handler pass, its command list is the
job update followed by the shift creation. -/
theorem applyForJobCmds_ok (st : State) (caller : Caller) (jobId newId : Nat) (job : Job)
    (hj : findJob st jobId = some job) (hav : job.status = .AVAILABLE)
    (hmem : job.employees.contains caller.id = false)
    (hver : caller.role = .EMPLOYEE →
      ((findUser st caller.id).map (fun u => u.verified)).getD false = true) :
    applyForJobCmds st caller jobId newId = .ok
      [fun s => updateJob s jobId (fun j =>
         { j with employees := connectId caller.id j.employees, status := .ASSIGNED }),
       fun s =>
         match findJob s jobId with
         | some jd =>
           { s with shifts := s.shifts ++
             [{ id := newId, jobId := jobId, employeeId := caller.id,
                startTime := jd.date, endTime := jd.date,
                status := .SCHEDULED, breakMinutes := 0 }] }
         | none => s] := by
  unfold applyForJobCmds
  simp only [hj]
  rw [if_neg (by simp [hav]), hmem]
  simp only [Bool.false_eq_true, if_false]
  rw [if_neg (fun hc => hc.2 (hver hc.1))]

/-- Running the apply handler to completion from a state that passes its
validations yields `applyFull`; stopping before the second store call
yields `applyMid`. -/
theorem applyForJob_runs (st : State) (caller : Caller) (jobId newId : Nat) (job : Job)
    (hj : findJob st jobId = some job) (hav : job.status = .AVAILABLE)
    (hmem : job.employees.contains caller.id = false)
    (hver : caller.role = .EMPLOYEE →
      ((findUser st caller.id).map (fun u => u.verified)).getD false = true) :
    applyForJob st caller jobId newId = .ok (applyFull st caller jobId newId job) ∧
    applyExec st caller jobId newId (some 1) = .ok (applyMid st caller jobId) := by
  have hcmds := applyForJobCmds_ok st caller jobId newId job hj hav hmem hver
  have hmid : findJob (applyMid st caller jobId) jobId = some
      { job with employees := connectId caller.id job.employees, status := .ASSIGNED } :=
    findJob_updateJob_self st jobId
      (fun j => { j with employees := connectId caller.id j.employees, status := .ASSIGNED })
      (fun _ => rfl) job hj
  constructor
  · unfold applyForJob applyExec
    rw [hcmds]
    simp only [Except.map, execCmds]
    unfold applyFull
    rw [show (updateJob st jobId (fun j =>
      { j with employees := connectId caller.id j.employees, status := .ASSIGNED })) =
      applyMid st caller jobId from rfl, hmid]
    rfl
  · unfold applyExec
    rw [hcmds]
    simp only [Except.map, execCmds]
    rfl

/-- A successful `applyForJob` run can only have passed every validation,
and then its final state is `applyFull`. -/
theorem applyForJob_ok_inv (st : State) (caller : Caller) (jobId newId : Nat) (st2 : State)
    (h : applyForJob st caller jobId newId = .ok st2) :
    ∃ job, findJob st jobId = some job ∧ job.status = .AVAILABLE ∧
      job.employees.contains caller.id = false ∧
      st2 = applyFull st caller jobId newId job := by
  cases hj : findJob st jobId with
  | none =>
    unfold applyForJob applyExec applyForJobCmds at h
    simp only [hj] at h
    simp [Except.map] at h
  | some job =>
    by_cases hav : job.status = .AVAILABLE
    · cases hmem : job.employees.contains caller.id with
      | true =>
        unfold applyForJob applyExec applyForJobCmds at h
        simp only [hj] at h
        rw [if_neg (by simp [hav]), hmem] at h
        simp [Except.map] at h
      | false =>
        by_cases hver : caller.role = .EMPLOYEE ∧
            ¬ ((findUser st caller.id).map (fun u => u.verified)).getD false = true
        · unfold applyForJob applyExec applyForJobCmds at h
          simp only [hj] at h
          rw [if_neg (by simp [hav]), hmem] at h
          simp only [Bool.false_eq_true, if_false] at h
          rw [if_pos hver] at h
          simp [Except.map] at h
        · have hver2 : caller.role = .EMPLOYEE →
              ((findUser st caller.id).map (fun u => u.verified)).getD false = true := by
            intro hrole
            by_contra hq
            exact hver ⟨hrole, hq⟩
          have hrun := (applyForJob_runs st caller jobId newId job hj hav hmem hver2).1
          rw [hrun] at h
          cases h
          exact ⟨job, rfl, hav, hmem, rfl⟩
    · unfold applyForJob applyExec applyForJobCmds at h
      simp only [hj] at h
      rw [if_pos hav] at h
      simp [Except.map] at h

/-! ## Claim C3 — the apply handler is not transactional -/

/-- **C3 (counterexample).** The claim states the three writes of
`applyForJob` are one atomic transaction, so no failure can leave the job
ASSIGNED with the employee a member but no shift persisted.  In the code
the job update and the shift creation are two separate top-level store
calls with no enclosing transaction: stopping after the first (storage
failing at the shift creation) leaves exactly the forbidden partial state. -/
theorem applyForJob_not_transactional :
    applyExec stApply applicant 1 7 (some 1) =
      .ok { users := stApply.users,
            jobs := [{ id := 1, status := .ASSIGNED, date := 5, employees := [2] }],
            shifts := [] } ∧
    jobStatusIn (stateAfter (applyExec stApply applicant 1 7 (some 1)) stApply) 1 =
      some .ASSIGNED ∧
    (stateAfter (applyExec stApply applicant 1 7 (some 1)) stApply).shifts = [] := by
  decide

/-- **C3 (amended).** `applyForJob` performs the membership-add and the
ASSIGNED write in one store call, but creates the shift in a second,
separate, non-transactional call: a full run commits all three writes,
while an execution interrupted between the two calls commits the job update
and membership-add with no shift persisted. -/
theorem applyForJob_two_phase (st : State) (caller : Caller) (jobId newId : Nat) (job : Job)
    (hj : findJob st jobId = some job) (hav : job.status = .AVAILABLE)
    (hmem : job.employees.contains caller.id = false)
    (hver : caller.role = .EMPLOYEE →
      ((findUser st caller.id).map (fun u => u.verified)).getD false = true) :
    applyForJob st caller jobId newId = .ok (applyFull st caller jobId newId job) ∧
    applyExec st caller jobId newId (some 1) = .ok (applyMid st caller jobId) ∧
    (applyMid st caller jobId).shifts = st.shifts ∧
    findJob (applyMid st caller jobId) jobId = some
      { job with employees := connectId caller.id job.employees, status := .ASSIGNED } := by
  obtain ⟨h1, h2⟩ := applyForJob_runs st caller jobId newId job hj hav hmem hver
  exact ⟨h1, h2, rfl,
    findJob_updateJob_self st jobId
      (fun j => { j with employees := connectId caller.id j.employees, status := .ASSIGNED })
      (fun _ => rfl) job hj⟩

/-- **C3 (witness).** The two-phase behaviour at the concrete apply
scenario. -/
theorem applyForJob_two_phase_witness :
    applyForJob stApply applicant 1 7 =
      .ok { users := stApply.users,
            jobs := [{ id := 1, status := .ASSIGNED, date := 5, employees := [2] }],
            shifts := [{ id := 7, jobId := 1, employeeId := 2, startTime := 5, endTime := 5,
                         status := .SCHEDULED, breakMinutes := 0 }] } ∧
    applyExec stApply applicant 1 7 (some 1) =
      .ok { users := stApply.users,
            jobs := [{ id := 1, status := .ASSIGNED, date := 5, employees := [2] }],
            shifts := [] } :=
  ⟨((applyForJob_two_phase stApply applicant 1 7
      { id := 1, status := .AVAILABLE, date := 5, employees := [] }
      (by decide) (by decide) (by decide) (fun _ => by decide)).1).trans (by decide),
   ((applyForJob_two_phase stApply applicant 1 7
      { id := 1, status := .AVAILABLE, date := 5, employees := [] }
      (by decide) (by decide) (by decide) (fun _ => by decide)).2.1).trans (by decide)⟩

/-! ## Claim C6 — the order of the apply prechecks -/

/-- **C6 (counterexample).** The claim states that after a successful
apply, a second apply by the same employee fails with the already-assigned
error.  In the code the availability check precedes the membership check,
and a successful apply leaves the job ASSIGNED, so the second apply fails
with the no-longer-available error instead. -/
theorem second_apply_not_alreadyAssigned :
    isOk (applyForJob stApply applicant 1 7) = true ∧
    applyForJob (stateAfter (applyForJob stApply applicant 1 7) stApply) applicant 1 8 =
      .error .jobNotAvailable ∧
    applyForJob (stateAfter (applyForJob stApply applicant 1 7) stApply) applicant 1 8 ≠
      .error .alreadyAssignedToJob := by
  decide

/-- **C6 (amended).** The already-assigned rejection fires only when the
job is still AVAILABLE with the caller already a member (a state the reset
workflow with `removeShifts = false` leaves behind); when the job is not
AVAILABLE — in particular right after a successful apply, which sets
ASSIGNED — the handler fails with the no-longer-available error before the
membership check is reached. -/
theorem applyForJob_precheck_order (st : State) (caller : Caller) (jobId newId : Nat)
    (job : Job) (hj : findJob st jobId = some job) :
    (job.status = .AVAILABLE → job.employees.contains caller.id = true →
      applyForJob st caller jobId newId = .error .alreadyAssignedToJob) ∧
    (job.status ≠ .AVAILABLE →
      applyForJob st caller jobId newId = .error .jobNotAvailable) := by
  constructor
  · intro hav hmem
    unfold applyForJob applyExec applyForJobCmds
    simp only [hj]
    rw [if_neg (by simp [hav]), hmem]
    rfl
  · intro hne
    unfold applyForJob applyExec applyForJobCmds
    simp only [hj]
    rw [if_pos hne]
    rfl

/-- **C6 (witness).** Both branches at concrete stores: a stale member on
an AVAILABLE job is rejected as already assigned; an apply on a COMPLETED
job is rejected as no longer available. -/
theorem applyForJob_precheck_order_witness :
    applyForJob stStaleMember applicant 1 7 = .error .alreadyAssignedToJob ∧
    applyForJob stBulk applicant 1 7 = .error .jobNotAvailable :=
  ⟨(applyForJob_precheck_order stStaleMember applicant 1 7
      { id := 1, status := .AVAILABLE, date := 5, employees := [2] } (by decide)).1
      (by decide) (by decide),
   (applyForJob_precheck_order stBulk applicant 1 7
      { id := 1, status := .COMPLETED, date := 0, employees := [] } (by decide)).2
      (by decide)⟩

end Movers

namespace Movers

/-! ## Claim C7 — shift time bounds -/

/-- **C7 (counterexample).** The claim states every stored shift satisfies
`startTime < endTime` strictly, including the shift `applyForJob` creates.
A successful apply on the concrete store creates a shift with
`startTime = endTime = job.date`, so the post-state violates the strict
inequality. -/
theorem applyForJob_zero_length_shift :
    applyForJob stApply applicant 1 9 =
      .ok { users := stApply.users,
            jobs := [{ id := 1, status := .ASSIGNED, date := 5, employees := [2] }],
            shifts := [{ id := 9, jobId := 1, employeeId := 2, startTime := 5, endTime := 5,
                         status := .SCHEDULED, breakMinutes := 0 }] } ∧
    ¬ (∀ s ∈ (stateAfter (applyForJob stApply applicant 1 9) stApply).shifts,
        s.startTime < s.endTime) := by
  decide

/-- **C7 (amended).** `createShift` does enforce the strict bound: a
successful call implies `startTime < endTime` and appends exactly the
requested shift.  The apply shortcut does not: any successful `applyForJob`
appends a zero-length shift whose start and end both equal the job's date. -/
theorem shift_time_bounds_amended :
    (∀ (st : State) (d : CreateShiftData) (newId : Nat) (st2 : State),
      createShift st d newId = .ok st2 →
      d.startTime < d.endTime ∧
        st2.shifts = st.shifts ++
          [{ id := newId, jobId := d.jobId, employeeId := d.employeeId,
             startTime := d.startTime, endTime := d.endTime,
             status := .SCHEDULED, breakMinutes := 0 }]) ∧
    (∀ (st : State) (caller : Caller) (jobId newId : Nat) (st2 : State),
      applyForJob st caller jobId newId = .ok st2 →
      ∃ job, findJob st jobId = some job ∧
        st2.shifts = st.shifts ++
          [{ id := newId, jobId := jobId, employeeId := caller.id,
             startTime := job.date, endTime := job.date,
             status := .SCHEDULED, breakMinutes := 0 }] ∧
        ∃ s ∈ st2.shifts, s.startTime = s.endTime) := by
  constructor
  · intro st d newId st2 h
    cases hu : findUser st d.employeeId with
    | none =>
      unfold createShift at h
      simp [hu] at h
    | some u =>
      cases hv : u.verified with
      | false =>
        unfold createShift at h
        simp [hu, hv] at h
      | true =>
        cases hjb : findJob st d.jobId with
        | none =>
          unfold createShift at h
          simp [hu, hv, hjb] at h
        | some job =>
          by_cases hle : d.startTime ≥ d.endTime
          · unfold createShift at h
            simp only [hu, hv, Bool.not_true, Bool.false_eq_true, if_false, hjb] at h
            rw [if_pos hle] at h
            exact Except.noConfusion h
          · cases hov : st.shifts.find? (overlapCond d) with
            | some s =>
              unfold createShift at h
              simp only [hu, hv, Bool.not_true, Bool.false_eq_true, if_false, hjb] at h
              rw [if_neg hle, hov] at h
              exact Except.noConfusion h
            | none =>
              unfold createShift at h
              simp only [hu, hv, Bool.not_true, Bool.false_eq_true, if_false, hjb] at h
              rw [if_neg hle, hov] at h
              cases h
              exact ⟨by omega, rfl⟩
  · intro st caller jobId newId st2 h
    obtain ⟨job, hj, hav, hmem, hfull⟩ := applyForJob_ok_inv st caller jobId newId st2 h
    refine ⟨job, hj, ?_, ?_⟩
    · rw [hfull]; rfl
    · rw [hfull]
      refine ⟨{ id := newId, jobId := jobId, employeeId := caller.id,
                startTime := job.date, endTime := job.date,
                status := .SCHEDULED, breakMinutes := 0 }, ?_, rfl⟩
      unfold applyFull
      simp

/-- **C7 (witness).** Both halves at concrete inputs: a successful
`createShift` (13–15 on the store with the 10–11 shift) stores the strict
interval as requested, and the concrete apply run appends the zero-length
shift. -/
theorem shift_time_bounds_amended_witness :
    ((13 : Int) < 15 ∧
      (stateAfter (createShift stContain ⟨1, 1, 13, 15⟩ 2) stContain).shifts =
        stContain.shifts ++ [⟨2, 1, 1, 13, 15, .SCHEDULED, 0⟩]) ∧
    ∃ s ∈ (stateAfter (applyForJob stApply applicant 1 9) stApply).shifts,
      s.startTime = s.endTime := by
  have h1 := (shift_time_bounds_amended).1 stContain ⟨1, 1, 13, 15⟩ 2
    (stateAfter (createShift stContain ⟨1, 1, 13, 15⟩ 2) stContain) (by decide)
  have h2 := (shift_time_bounds_amended).2 stApply applicant 1 9
    (stateAfter (applyForJob stApply applicant 1 9) stApply) (by decide)
  exact ⟨⟨h1.1, h1.2⟩, h2.choose_spec.2.2⟩

/-! ## Claim C8 — the bulk assign route shares no checks with apply -/

/-- **C8 (counterexample).** The claim states `assignEmployees` applies the
same core logic as `applyForJob`: invalid-state unless AVAILABLE,
already-assigned and verification checks, one SCHEDULED shift per assignee,
then ASSIGNED.  On a COMPLETED job with an unverified employee the route
succeeds anyway, overwrites the status with ASSIGNED and creates no
shift. -/
theorem assign_skips_preconditions :
    assignEmployees stBulk 1 [2] =
      .ok { stBulk with jobs := [{ id := 1, status := .ASSIGNED, date := 0,
                                   employees := [2] }] } ∧
    (stateAfter (assignEmployees stBulk 1 [2]) stBulk).shifts = [] := by
  decide

/-- **C8 (amended).** `assignEmployees` performs none of the apply
preconditions and creates no shifts: whenever the job and the referenced
employees exist it succeeds unconditionally, connecting the listed ids to
the membership set and overwriting the status with ASSIGNED, whatever the
previous status or verification state; the shift table is untouched. -/
theorem assignEmployees_no_checks (st : State) (jobId : Nat) (ids : List Nat) (job : Job)
    (hj : findJob st jobId = some job)
    (hu : ∀ e ∈ ids, (findUser st e).isSome = true) :
    assignEmployees st jobId ids =
      .ok (updateJob st jobId (fun j =>
        { j with employees := ids.foldl (fun acc e => connectId e acc) j.employees,
                 status := .ASSIGNED })) ∧
    (updateJob st jobId (fun j =>
        { j with employees := ids.foldl (fun acc e => connectId e acc) j.employees,
                 status := .ASSIGNED })).shifts = st.shifts ∧
    findJob (updateJob st jobId (fun j =>
        { j with employees := ids.foldl (fun acc e => connectId e acc) j.employees,
                 status := .ASSIGNED })) jobId =
      some { job with employees := ids.foldl (fun acc e => connectId e acc) job.employees,
                      status := .ASSIGNED } := by
  have hany : (ids.any (fun e => (findUser st e).isNone)) = false := by
    cases hq : ids.any (fun e => (findUser st e).isNone) with
    | false => rfl
    | true =>
      obtain ⟨e, he, hne⟩ := List.any_eq_true.mp hq
      have := hu e he
      cases hfe : findUser st e with
      | none => rw [hfe] at this; simp at this
      | some u => rw [hfe] at hne; simp at hne
  refine ⟨?_, rfl, findJob_updateJob_self st jobId
    (fun j => { j with
                employees := ids.foldl (fun acc e => connectId e acc) j.employees,
                status := .ASSIGNED }) (fun _ => rfl) job hj⟩
  unfold assignEmployees
  simp only [hj, hany]
  rfl

/-- **C8 (witness).** The unconditional bulk assignment at the concrete
COMPLETED-job store. -/
theorem assignEmployees_no_checks_witness :
    assignEmployees stBulk 1 [2] =
      .ok { stBulk with jobs := [{ id := 1, status := .ASSIGNED, date := 0,
                                   employees := [2] }] } :=
  ((assignEmployees_no_checks stBulk 1 [2]
      { id := 1, status := .COMPLETED, date := 0, employees := [] }
      (by decide) (by decide)).1).trans (by decide)

end Movers

namespace Movers

/-- Running an empty command list is the identity for every failure point. -/
theorem execCmds_nil (failAt : Option Nat) (st : State) : execCmds [] failAt st = st := by
  cases failAt with
  | none => rfl
  | some n => cases n <;> rfl

/-! ## Claim C9 — the reset workflow -/

/-- **C9 (confirmed).** With the EMPLOYER role and an existing job,
setting status AVAILABLE with `removeShifts = true` deletes every shift of
the job and clears its membership set inside the same single
`prisma.$transaction` as the status write — so any storage failure point
leaves either the untouched initial store or the fully reset one — while
`removeShifts = false` writes AVAILABLE and leaves every shift and the
membership set unchanged. -/
theorem setJobAvailable_spec (st : State) (caller : Caller) (jobId : Nat) (job : Job)
    (hrole : caller.role = .EMPLOYER) (hj : findJob st jobId = some job) :
    updateJobStatus st caller jobId .AVAILABLE true = .ok (resetPurge st jobId) ∧
    (∀ failAt, updateJobStatusExec st caller jobId .AVAILABLE true failAt = .ok st ∨
      updateJobStatusExec st caller jobId .AVAILABLE true failAt =
        .ok (resetPurge st jobId)) ∧
    jobShifts (resetPurge st jobId) jobId = [] ∧
    (resetPurge st jobId).shifts = st.shifts.filter (fun sh => sh.jobId ≠ jobId) ∧
    jobStatusIn (resetPurge st jobId) jobId = some .AVAILABLE ∧
    (findJob (resetPurge st jobId) jobId).map (fun j => j.employees) = some [] ∧
    updateJobStatus st caller jobId .AVAILABLE false = .ok (resetKeep st jobId) ∧
    (resetKeep st jobId).shifts = st.shifts ∧
    jobStatusIn (resetKeep st jobId) jobId = some .AVAILABLE ∧
    (findJob (resetKeep st jobId) jobId).map (fun j => j.employees) =
      some job.employees := by
  have hrneg : ¬ ((JobStatus.AVAILABLE = JobStatus.AVAILABLE ∨
      JobStatus.AVAILABLE = JobStatus.ASSIGNED) ∧ caller.role ≠ Role.EMPLOYER) :=
    fun hc => hc.2 hrole
  have hcmdsT : updateJobStatusCmds st caller jobId .AVAILABLE true = .ok
      [fun s =>
        let s1 := if JobStatus.AVAILABLE = JobStatus.AVAILABLE && true then
            { s with shifts := s.shifts.filter (fun sh => sh.jobId ≠ jobId) }
          else s
        updateJob s1 jobId (fun j =>
          { j with status := JobStatus.AVAILABLE,
                   employees := if JobStatus.AVAILABLE = JobStatus.AVAILABLE && true then []
                                else j.employees })] := by
    unfold updateJobStatusCmds
    rw [if_neg hrneg]
    simp only [hj]
  have hcmdsF : updateJobStatusCmds st caller jobId .AVAILABLE false = .ok
      [fun s =>
        let s1 := if JobStatus.AVAILABLE = JobStatus.AVAILABLE && false then
            { s with shifts := s.shifts.filter (fun sh => sh.jobId ≠ jobId) }
          else s
        updateJob s1 jobId (fun j =>
          { j with status := JobStatus.AVAILABLE,
                   employees := if JobStatus.AVAILABLE = JobStatus.AVAILABLE && false then []
                                else j.employees })] := by
    unfold updateJobStatusCmds
    rw [if_neg hrneg]
    simp only [hj]
  have hfindT : findJob (resetPurge st jobId) jobId =
      some { job with status := .AVAILABLE, employees := [] } :=
    findJob_updateJob_self { st with shifts := st.shifts.filter (fun sh => sh.jobId ≠ jobId) }
      jobId (fun j => { j with status := .AVAILABLE, employees := [] })
      (fun _ => rfl) job hj
  have hfindF : findJob (resetKeep st jobId) jobId =
      some { job with status := .AVAILABLE } :=
    findJob_updateJob_self st jobId (fun j => { j with status := .AVAILABLE })
      (fun _ => rfl) job hj
  refine ⟨?_, ?_, ?_, rfl, ?_, ?_, ?_, rfl, ?_, ?_⟩
  · unfold updateJobStatus
    rw [hcmdsT]
    rfl
  · intro failAt
    unfold updateJobStatusExec
    rw [hcmdsT]
    cases failAt with
    | none => exact Or.inr rfl
    | some n =>
      cases n with
      | zero => exact Or.inl rfl
      | succ m =>
        right
        simp only [Except.map, execCmds, execCmds_nil]
        rfl
  · unfold jobShifts resetPurge updateJob
    simp only [List.filter_filter]
    rw [List.filter_eq_nil_iff]
    intro s _
    simp
  · unfold jobStatusIn
    rw [hfindT]
    rfl
  · rw [hfindT]
    rfl
  · unfold updateJobStatus
    rw [hcmdsF]
    rfl
  · unfold jobStatusIn
    rw [hfindF]
    rfl
  · rw [hfindF]
    rfl

/-- **C9 (witness).** Both reset modes at the concrete two-job store: the
purge run deletes the job's shift and membership and leaves the other
job's shift alone; the keep run only rewrites the status. -/
theorem setJobAvailable_spec_witness :
    updateJobStatus stReset employer 1 .AVAILABLE true =
      .ok { users := stReset.users,
            jobs := [{ id := 1, status := .AVAILABLE, date := 5, employees := [] },
                     { id := 2, status := .AVAILABLE, date := 6, employees := [] }],
            shifts := [{ id := 2, jobId := 2, employeeId := 2, startTime := 20,
                         endTime := 21, status := .SCHEDULED, breakMinutes := 0 }] } ∧
    updateJobStatus stReset employer 1 .AVAILABLE false =
      .ok { stReset with
            jobs := [{ id := 1, status := .AVAILABLE, date := 5, employees := [2] },
                     { id := 2, status := .AVAILABLE, date := 6, employees := [] }] } :=
  ⟨((setJobAvailable_spec stReset employer 1
      { id := 1, status := .ASSIGNED, date := 5, employees := [2] }
      (by decide) (by decide)).1).trans (by decide),
   ((setJobAvailable_spec stReset employer 1
      { id := 1, status := .ASSIGNED, date := 5, employees := [2] }
      (by decide) (by decide)).2.2.2.2.2.2.1).trans (by decide)⟩

end Movers

namespace Movers

/-! ## Claim C4 — the completion cascade -/

/-- Congruence for `List.all` under pointwise equality on members. -/
theorem all_congr_mem {α : Type} (l : List α) (p q : α → Bool)
    (h : ∀ a ∈ l, p a = q a) : l.all p = l.all q := by
  rw [Bool.eq_iff_iff, List.all_eq_true, List.all_eq_true]
  exact ⟨fun hx a ha => (h a ha) ▸ hx a ha, fun hx a ha => (h a ha).symm ▸ hx a ha⟩

/-- One step of the completion fold on a marked store: completing a not-yet
processed ACTIVE shift of job `j` marks it, and additionally stamps the job
COMPLETED exactly when every shift of the job is the one at hand or already
processed. -/
theorem completeShift_step (st : State) (p : CompletePayload) (cid j : Nat) (job : Job)
    (hj : findJob st j = some job)
    (hnd : (st.shifts.map (fun s => s.id)).Nodup)
    (hact : ∀ s ∈ jobShifts st j, s.status = .ACTIVE)
    (done : List Nat) (s0 : Shift)
    (hs0mem : s0 ∈ jobShifts st j) (hnotdone : s0.id ∉ done) :
    completeShift (markDone st p done) { id := cid, role := .ADMIN } s0.id p =
      if (jobShifts st j).all (fun s => s.id = s0.id || decide (s.id ∈ done)) then
        .ok (updateJob (markDone st p (done ++ [s0.id])) job.id
              (fun jb => { jb with status := .COMPLETED }))
      else .ok (markDone st p (done ++ [s0.id])) := by
  obtain ⟨hs0st, hs0job⟩ := (mem_jobShifts st j s0).mp hs0mem
  have hfind0 : findShift st s0.id = some s0 := by
    show st.shifts.find? (fun s => s.id = s0.id) = some s0
    exact find?_key_of_mem (fun s => s.id) s0 st.shifts hnd hs0st
  have hfindSh : findShift (markDone st p done) s0.id = some s0 := by
    rw [findShift_markDone, hfind0]
    simp [hnotdone]
  have hJ2 : findJob (markDone st p done) s0.jobId = some job := by
    show findJob st s0.jobId = some job
    rw [hs0job]
    exact hj
  have hsnoc : (updateShift (markDone st p done) s0.id (fun s =>
      { s with endTime := p.endTime, status := ShiftStatus.COMPLETED,
               breakMinutes := p.breakMinutes })) = markDone st p (done ++ [s0.id]) :=
    markDone_snoc st p done s0.id
  have hcondEq : ((jobShifts (markDone st p done) s0.jobId).all
      (fun s => s.id = s0.id || s.status = ShiftStatus.COMPLETED)) =
      ((jobShifts st j).all (fun s => s.id = s0.id || decide (s.id ∈ done))) := by
    rw [hs0job, jobShifts_markDone]
    rw [List.all_map]
    refine all_congr_mem _ _ _ (fun s hs => ?_)
    by_cases hd : s.id ∈ done
    · simp [Function.comp, hd, completedWith]
    · simp [Function.comp, hd, hact s hs]
  unfold completeShift
  simp only [hfindSh, hJ2]
  rw [if_neg (by simp [authorizedForShift])]
  rw [if_neg (by simp [hact s0 hs0mem])]
  simp only [hcondEq, hsnoc]

/-- The completion fold over any enumeration of the (all ACTIVE) shifts of
job `j` ends with the job stamped COMPLETED, by induction on the remaining
ids with the processed prefix generalized. -/
theorem completeAll_go (st : State) (p : CompletePayload) (cid j : Nat) (job : Job)
    (hj : findJob st j = some job)
    (hnd : (st.shifts.map (fun s => s.id)).Nodup)
    (hact : ∀ s ∈ jobShifts st j, s.status = .ACTIVE) :
    ∀ (rem done : List Nat), (done ++ rem).Nodup →
      (∀ i ∈ done ++ rem, i ∈ (jobShifts st j).map (fun s => s.id)) →
      (∀ i ∈ (jobShifts st j).map (fun s => s.id), i ∈ done ++ rem) →
      rem ≠ [] →
      jobStatusIn (completeAll { id := cid, role := .ADMIN } p (markDone st p done) rem) j =
        some .COMPLETED := by
  intro rem
  induction rem with
  | nil => intro done _ _ _ hne; exact absurd rfl hne
  | cons i rest ih =>
    intro done hndl hcovSub hcovSup _
    have hiIn : i ∈ (jobShifts st j).map (fun s => s.id) :=
      hcovSub i (by simp)
    obtain ⟨s0, hs0mem, hs0id⟩ := List.mem_map.mp hiIn
    have hdisj : done.Disjoint (i :: rest) := (List.nodup_append.mp hndl).2.2
    have hnotdone : i ∉ done := fun hin => hdisj hin (by simp)
    have hstep := completeShift_step st p cid j job hj hnd hact done s0 hs0mem
      (by rw [hs0id]; exact hnotdone)
    rw [hs0id] at hstep
    have hfold : completeAll { id := cid, role := .ADMIN } p (markDone st p done) (i :: rest) =
        completeAll { id := cid, role := .ADMIN } p
          (stateAfter (completeShift (markDone st p done)
            { id := cid, role := .ADMIN } i p) (markDone st p done)) rest := rfl
    cases rest with
    | nil =>
      have hcond : (jobShifts st j).all (fun s => s.id = i || decide (s.id ∈ done)) = true := by
        rw [List.all_eq_true]
        intro s hs
        have hsIn : s.id ∈ done ++ [i] :=
          hcovSup s.id (List.mem_map_of_mem (fun s => s.id) hs)
        rcases List.mem_append.mp hsIn with hin | hin
        · simp [hin]
        · simp at hin
          simp [hin]
      rw [if_pos hcond] at hstep
      rw [hfold, hstep]
      have hjid : job.id = j := findJob_id st j job hj
      have hfindM : findJob (markDone st p (done ++ [i])) j = some job := hj
      have hupd := findJob_updateJob_self (markDone st p (done ++ [i])) j
        (fun jb => { jb with status := JobStatus.COMPLETED }) (fun _ => rfl) job hfindM
      show jobStatusIn (updateJob (markDone st p (done ++ [i])) job.id
        (fun jb => { jb with status := JobStatus.COMPLETED })) j = some JobStatus.COMPLETED
      rw [hjid]
      unfold jobStatusIn
      rw [hupd]
      rfl
    | cons i2 rest2 =>
      have hi2In : i2 ∈ (jobShifts st j).map (fun s => s.id) :=
        hcovSub i2 (by simp)
      obtain ⟨s2, hs2mem, hs2id⟩ := List.mem_map.mp hi2In
      have hndtail : (i :: i2 :: rest2).Nodup := (List.nodup_append.mp hndl).2.1
      have hi2ne : i2 ≠ i := by
        intro he
        have := (List.nodup_cons.mp hndtail).1
        exact this (by simp [he])
      have hi2notdone : i2 ∉ done := fun hin => hdisj hin (by simp)
      have hcond : (jobShifts st j).all (fun s => s.id = i || decide (s.id ∈ done)) = false := by
        rcases hq : (jobShifts st j).all (fun s => s.id = i || decide (s.id ∈ done)) with _ | _
        · rfl
        · exfalso
          have := List.all_eq_true.mp hq s2 hs2mem
          rw [hs2id] at this
          simp [hi2ne, hi2notdone] at this
      rw [if_neg (by simp [hcond])] at hstep
      rw [hfold, hstep]
      show jobStatusIn (completeAll { id := cid, role := .ADMIN } p
        (markDone st p (done ++ [i])) (i2 :: rest2)) j = some JobStatus.COMPLETED
      have hperm : (done ++ [i]) ++ (i2 :: rest2) = done ++ (i :: i2 :: rest2) := by
        rw [List.append_assoc]
        rfl
      refine ih (done ++ [i]) ?_ ?_ ?_ (by simp)
      · rw [hperm]
        exact hndl
      · intro q hq
        rw [hperm] at hq
        exact hcovSub q hq
      · intro q hq
        rw [hperm]
        exact hcovSup q hq

end Movers

namespace Movers

/-- The completion cascade characterized when the parent job is not already
COMPLETED: the call succeeds and the post-state job status is COMPLETED
exactly when every shift of the job in the post-state is COMPLETED. -/
theorem cascade_iff (st : State) (caller : Caller) (id : Nat) (p : CompletePayload)
    (sh : Shift) (job : Job)
    (hsh : findShift st id = some sh) (hj : findJob st sh.jobId = some job)
    (hauth : authorizedForShift caller sh job = true) (hact : sh.status = .ACTIVE)
    (hjob : job.status ≠ .COMPLETED) :
    isOk (completeShift st caller id p) = true ∧
    (jobStatusIn (stateAfter (completeShift st caller id p) st) sh.jobId =
        some .COMPLETED ↔
      ∀ s ∈ jobShifts (stateAfter (completeShift st caller id p) st) sh.jobId,
        s.status = .COMPLETED) := by
  have hpost := completeShift_post st caller id p sh job hsh hj hauth hact
  have hjid : job.id = sh.jobId := findJob_id st sh.jobId job hj
  have hshifts : jobShifts (updateShift st id (completedWith p)) sh.jobId =
      (jobShifts st sh.jobId).map (fun s => if s.id = id then completedWith p s else s) :=
    jobShifts_updateShift st id (completedWith p) (fun _ => rfl) sh.jobId
  cases hcond : (jobShifts st sh.jobId).all (fun s => s.id = id || s.status = .COMPLETED) with
  | true =>
    rw [if_pos hcond] at hpost
    rw [hpost]
    simp only [stateAfter]
    have hfind2 : findJob (updateShift st id (completedWith p)) sh.jobId = some job := hj
    have hupd := findJob_updateJob_self (updateShift st id (completedWith p)) sh.jobId
      (fun jb => { jb with status := JobStatus.COMPLETED }) (fun _ => rfl) job hfind2
    have hLHS : jobStatusIn (updateJob (updateShift st id (completedWith p)) job.id
        (fun jb => { jb with status := JobStatus.COMPLETED })) sh.jobId =
        some JobStatus.COMPLETED := by
      rw [hjid]
      unfold jobStatusIn
      rw [hupd]
      rfl
    refine ⟨rfl, Iff.intro (fun _ => ?_) (fun _ => hLHS)⟩
    have hlist : jobShifts (updateJob (updateShift st id (completedWith p)) job.id
        (fun jb => { jb with status := JobStatus.COMPLETED })) sh.jobId =
        (jobShifts st sh.jobId).map (fun s => if s.id = id then completedWith p s else s) :=
      hshifts
    rw [hlist]
    intro s2 hs2
    obtain ⟨s, hsmem, rfl⟩ := List.mem_map.mp hs2
    by_cases hid : s.id = id
    · simp [hid, completedWith]
    · simp only [if_neg hid]
      have hp := List.all_eq_true.mp hcond s hsmem
      simp [hid] at hp
      exact hp
  | false =>
    rw [if_neg (by simp [hcond])] at hpost
    rw [hpost]
    simp only [stateAfter]
    refine ⟨rfl, iff_of_false ?_ ?_⟩
    · have hstat : jobStatusIn (updateShift st id (completedWith p)) sh.jobId =
          some job.status := by
        unfold jobStatusIn
        rw [show findJob (updateShift st id (completedWith p)) sh.jobId = some job from hj]
        rfl
      rw [hstat]
      intro hq
      exact hjob (by injection hq)
    · intro hall
      have hnall : ¬ ∀ s ∈ jobShifts st sh.jobId,
          (decide (s.id = id) || decide (s.status = ShiftStatus.COMPLETED)) = true := by
        intro hforall
        have := List.all_eq_true.mpr hforall
        rw [this] at hcond
        exact Bool.noConfusion hcond
      push_neg at hnall
      obtain ⟨s, hsmem, hns⟩ := hnall
      have hns2 : s.id ≠ id ∧ s.status ≠ ShiftStatus.COMPLETED := by
        constructor
        · intro he
          exact hns (by simp [he])
        · intro he
          exact hns (by simp [he])
      rw [hshifts] at hall
      have hmemPost : (if s.id = id then completedWith p s else s) ∈
          (jobShifts st sh.jobId).map (fun s => if s.id = id then completedWith p s else s) :=
        List.mem_map_of_mem _ hsmem
      have := hall _ hmemPost
      rw [if_neg hns2.1] at this
      exact hns2.2 this

/-- **C4 (counterexample).** The claim's iff fails when the job is already
marked COMPLETED while work is open: completing the ACTIVE shift of
`stStaleDone` succeeds and leaves the job COMPLETED, yet its second shift
is still SCHEDULED. -/
theorem completed_job_cascade_iff_false :
    isOk (completeShift stStaleDone admin 1 pay10) = true ∧
    jobStatusIn (stateAfter (completeShift stStaleDone admin 1 pay10) stStaleDone) 1 =
      some .COMPLETED ∧
    ¬ (∀ s ∈ jobShifts (stateAfter (completeShift stStaleDone admin 1 pay10) stStaleDone) 1,
        s.status = .COMPLETED) := by
  decide

/-- **C4 (amended).** Provided the job's status was not already COMPLETED
before the call, a successful `completeShift` leaves the job COMPLETED iff
every shift of the job is then COMPLETED; and completing all the (ACTIVE)
shifts of a job in any order stamps the job COMPLETED, so any two orders
yield the same final job status. -/
theorem completeShift_cascade_amended :
    (∀ (st : State) (caller : Caller) (id : Nat) (p : CompletePayload)
        (sh : Shift) (job : Job),
      findShift st id = some sh → findJob st sh.jobId = some job →
      authorizedForShift caller sh job = true → sh.status = .ACTIVE →
      job.status ≠ .COMPLETED →
      isOk (completeShift st caller id p) = true ∧
        (jobStatusIn (stateAfter (completeShift st caller id p) st) sh.jobId =
            some .COMPLETED ↔
          ∀ s ∈ jobShifts (stateAfter (completeShift st caller id p) st) sh.jobId,
            s.status = .COMPLETED)) ∧
    (∀ (st : State) (p : CompletePayload) (cid j : Nat) (job : Job) (l1 l2 : List Nat),
      findJob st j = some job →
      (st.shifts.map (fun s => s.id)).Nodup →
      (∀ s ∈ jobShifts st j, s.status = .ACTIVE) →
      l1.Nodup → l2.Nodup →
      (∀ i ∈ l1, i ∈ (jobShifts st j).map (fun s => s.id)) →
      (∀ i ∈ (jobShifts st j).map (fun s => s.id), i ∈ l1) →
      (∀ i ∈ l2, i ∈ (jobShifts st j).map (fun s => s.id)) →
      (∀ i ∈ (jobShifts st j).map (fun s => s.id), i ∈ l2) →
      l1 ≠ [] →
      jobStatusIn (completeAll { id := cid, role := .ADMIN } p st l1) j =
        some .COMPLETED ∧
      jobStatusIn (completeAll { id := cid, role := .ADMIN } p st l1) j =
        jobStatusIn (completeAll { id := cid, role := .ADMIN } p st l2) j) := by
  constructor
  · intro st caller id p sh job hsh hj hauth hact hjob
    exact cascade_iff st caller id p sh job hsh hj hauth hact hjob
  · intro st p cid j job l1 l2 hj hnd hact h1nd h2nd h1sub h1sup h2sub h2sup h1ne
    have run1 : jobStatusIn (completeAll { id := cid, role := .ADMIN } p st l1) j =
        some .COMPLETED := by
      have h := completeAll_go st p cid j job hj hnd hact l1 [] h1nd h1sub h1sup h1ne
      rwa [markDone_nil] at h
    have h2ne : l2 ≠ [] := by
      cases hl1 : l1 with
      | nil => exact absurd hl1 h1ne
      | cons a t =>
        have ha : a ∈ l2 := h2sup a (h1sub a (by rw [hl1]; simp))
        intro hq
        rw [hq] at ha
        exact (List.not_mem_nil a) ha
    have run2 : jobStatusIn (completeAll { id := cid, role := .ADMIN } p st l2) j =
        some .COMPLETED := by
      have h := completeAll_go st p cid j job hj hnd hact l2 [] h2nd h2sub h2sup h2ne
      rwa [markDone_nil] at h
    exact ⟨run1, run1.trans run2.symm⟩

/-- **C4 (witness).** The amended cascade at concrete stores: completing
one of the two ACTIVE shifts of `stTwoActive` satisfies the iff, and both
completion orders of its two shifts end with the job COMPLETED. -/
theorem completeShift_cascade_amended_witness :
    (isOk (completeShift stTwoActive admin 1 pay10) = true ∧
      (jobStatusIn (stateAfter (completeShift stTwoActive admin 1 pay10) stTwoActive) 1 =
          some .COMPLETED ↔
        ∀ s ∈ jobShifts (stateAfter (completeShift stTwoActive admin 1 pay10) stTwoActive) 1,
          s.status = .COMPLETED)) ∧
    (jobStatusIn (completeAll { id := 9, role := .ADMIN } pay10 stTwoActive [1, 2]) 1 =
        some .COMPLETED ∧
      jobStatusIn (completeAll { id := 9, role := .ADMIN } pay10 stTwoActive [1, 2]) 1 =
        jobStatusIn (completeAll { id := 9, role := .ADMIN } pay10 stTwoActive [2, 1]) 1) :=
  ⟨completeShift_cascade_amended.1 stTwoActive admin 1 pay10
      ⟨1, 1, 2, 0, 10, .ACTIVE, 0⟩ ⟨1, .ASSIGNED, 0, []⟩
      (by decide) (by decide) (by decide) (by decide) (by decide),
   completeShift_cascade_amended.2 stTwoActive pay10 9 1 ⟨1, .ASSIGNED, 0, []⟩ [1, 2] [2, 1]
      (by decide) (by decide) (by decide) (by decide) (by decide) (by decide) (by decide)
      (by decide) (by decide) (by decide)⟩

end Movers
